import Mathlib

/-!
Shallow embedding of the mermaid-visualizer core pipeline:

* the Mermaid flowchart parser (`MermaidParser` in `src/parsers/mermaidParser.ts`),
* the ELK layout adapter (`ELKLayoutEngine` in `src/layout/elkLayout.ts`),
* the canonical graph model (`src/types`).

Strings are modelled as `List Char` inside the parser (JS strings are char
sequences); the graph model carries Lean `String`s.  JS `Map` is modelled as an
insertion-ordered association list (`setAssoc` overwrites in place, appends new
keys at the end, exactly like `Map.prototype.set`).  The external ELK engine is
an opaque parameter `ElkGraph → Except String ElkOutGraph`; a thrown/rejected
engine call is an `Except.error` outcome caught by `layout`'s try/catch.
-/

namespace MermaidViz

/-- Character class of the JS regex `\w` (ASCII letters, digits, underscore). -/
def isWordChar (c : Char) : Bool := c.isAlphanum || c == '_'

/-- Whitespace class used for the JS regex `\s` and `String.prototype.trim`,
restricted to the common ASCII whitespace characters. -/
def isSpaceChar (c : Char) : Bool := c == ' ' || c == '\t' || c == '\n' || c == '\r'

/-- JS `String.prototype.trim`: drop whitespace from both ends. -/
def trimChars (l : List Char) : List Char :=
  ((l.dropWhile isSpaceChar).reverse.dropWhile isSpaceChar).reverse

/-- JS `s.slice(a, -b)`: the characters from index `a` up to `length - b`
(empty when the range is degenerate, like in JS). -/
def jsSlice (l : List Char) (a b : Nat) : List Char :=
  (l.drop a).take (l.length - b - a)

/-- Node shapes of the graph model (`src/types`). -/
inductive Shape where
  | rectangle
  | circle
  | diamond
  | rounded
  | stadium
deriving DecidableEq, Repr

/-- A coordinate pair `{x, y}`. -/
structure Pos where
  x : Int
  y : Int
deriving DecidableEq, Repr

/-- A size record `{width, height}`. -/
structure Size where
  width : Int
  height : Int
deriving DecidableEq, Repr

/-- GraphNode of `src/types`.  The optional JS `isDragged?: boolean` collapses
undefined/false into `false` (every read in the source is by truthiness).
The optional `style` overrides are never read or written by the parser or
layout code modelled here and are omitted. -/
structure GraphNode where
  id : String
  label : String
  shape : Shape
  position : Option Pos := none
  size : Option Size := none
  isDragged : Bool := false
deriving DecidableEq, Repr

/-- Edge type enum of `src/types`. -/
inductive EdgeType where
  | arrow
  | dashed
  | dotted
deriving DecidableEq, Repr

/-- GraphEdge of `src/types`.  The source field `from` is a Lean keyword and is
called `fromId` here and `to` is called `toId`; `points` is the optional routing-waypoint list only the
layout adapter populates. -/
structure GraphEdge where
  id : String
  fromId : String
  toId : String
  label : Option String := none
  type : EdgeType := .arrow
  points : Option (List Pos) := none
deriving DecidableEq, Repr

/-- Graph of `src/types`: ordered nodes and ordered edges. -/
structure Graph where
  nodes : List GraphNode
  edges : List GraphEdge
deriving DecidableEq, Repr

/-- LayoutResult of `src/types`. -/
structure LayoutResult where
  graph : Graph
  bounds : Size
deriving DecidableEq, Repr

/-- ParseError of `src/types` (`line`/`column` are never populated by the
current algorithm). -/
structure ParseError where
  message : String
  line : Option Nat := none
  column : Option Nat := none
deriving DecidableEq, Repr

/-- ParseResult of `src/types`: optional `graph`, optional `error`. -/
structure ParseResult where
  graph : Option Graph := none
  error : Option ParseError := none
deriving DecidableEq, Repr

/-! ### Insertion-ordered map (JS `Map<string, GraphNode>`) -/

/-- JS `Map.prototype.set`: overwrite in place if the key exists, otherwise
append the new entry at the end (insertion order preserved). -/
def setAssoc : List (String × GraphNode) → String → GraphNode → List (String × GraphNode)
  | [], k, v => [(k, v)]
  | (k', v') :: rest, k, v =>
    if k' = k then (k', v) :: rest else (k', v') :: setAssoc rest k v

/-- JS `Map.prototype.has`. -/
def hasKey (m : List (String × GraphNode)) (k : String) : Bool :=
  m.any (fun p => p.1 == k)

/-- JS `Map.prototype.get` (`none` for undefined). -/
def getAssoc : List (String × GraphNode) → String → Option GraphNode
  | [], _ => none
  | (k', v) :: rest, k => if k' = k then some v else getAssoc rest k

/-! ### Regex matchers of `MermaidParser.parseFlowchartContent`

Each JS regex of the source is compiled by hand into a deterministic matcher.
The regexes involved have no genuine backtracking: every character class in
them is disjoint from the character that must follow it, so greedy maximal
munch is the unique match. -/

/-- Maximal prefix of `\w` characters (`(\w+)` capture) together with the
rest of the line. -/
def takeWord : List Char → List Char × List Char
  | [] => ([], [])
  | c :: rest =>
    if isWordChar c then
      let p := takeWord rest
      (c :: p.1, p.2)
    else ([], c :: rest)

/-- The regex `\s*`: skip a maximal whitespace run. -/
def skipSpaces (l : List Char) : List Char := l.dropWhile isSpaceChar

/-- Match a literal character sequence as a prefix, returning the rest. -/
def dropLit : List Char → List Char → Option (List Char)
  | [], l => some l
  | _ :: _, [] => none
  | p :: ps, c :: cs => if c == p then dropLit ps cs else none

/-- The bracket-form alternation `\[[^\]]+\]|\(\([^\)]+\)\)|\{[^}]+\}` matched
as a prefix; returns the matched text (delimiters included, as the regex
capture group does) and the rest.  The content of each form is the maximal
nonempty run of characters excluding the closing delimiter. -/
def matchBracketForm : List Char → Option (List Char × List Char)
  | '[' :: rest =>
    match rest.span (fun c => !(c == ']')) with
    | (content, ']' :: r) =>
      if content.isEmpty then none else some ('[' :: (content ++ [']']), r)
    | _ => none
  | '(' :: '(' :: rest =>
    match rest.span (fun c => !(c == ')')) with
    | (content, ')' :: ')' :: r) =>
      if content.isEmpty then none else some ('(' :: '(' :: (content ++ [')', ')']), r)
    | _ => none
  | '{' :: rest =>
    match rest.span (fun c => !(c == '}')) with
    | (content, '}' :: r) =>
      if content.isEmpty then none else some ('{' :: (content ++ ['}']), r)
    | _ => none
  | _ => none

/-- The optional trailing label group `(?:\|([^\|]+)\|)?` at the current
position: the captured label when the group matches, otherwise `none` (the
overall regex still succeeds). -/
def matchOptLabel : List Char → Option (List Char)
  | '|' :: rest =>
    match rest.span (fun c => !(c == '|')) with
    | (content, '|' :: _) => if content.isEmpty then none else some content
    | _ => none
  | _ => none

/-- Regex `/^(\w+)(\[[^\]]+\]|\(\([^\)]+\)\)|\{[^}]+\})$/` (bare node
declaration, anchored at both ends): captures `(id, nodeDef)`. -/
def matchNodeDecl (line : List Char) : Option (List Char × List Char) :=
  match takeWord line with
  | ([], _) => none
  | (id, rest) =>
    match matchBracketForm rest with
    | some (nodeDef, []) => some (id, nodeDef)
    | _ => none

/-- Regex `/^(\w+)(BR)\s*-->\s*(\w+)(BR)(?:\|([^\|]+)\|)?/` (edge with both
endpoints' bracket forms, not end-anchored): captures
`(fromId, fromNodeDef, toId, toNodeDef, label?)`. -/
def matchEdgeWithNodes (line : List Char) :
    Option (List Char × List Char × List Char × List Char × Option (List Char)) :=
  match takeWord line with
  | ([], _) => none
  | (fromId, r1) =>
    match matchBracketForm r1 with
    | none => none
    | some (fromDef, r2) =>
      match dropLit ['-', '-', '>'] (skipSpaces r2) with
      | none => none
      | some r3 =>
        match takeWord (skipSpaces r3) with
        | ([], _) => none
        | (toId, r4) =>
          match matchBracketForm r4 with
          | none => none
          | some (toDef, r5) => some (fromId, fromDef, toId, toDef, matchOptLabel r5)

/-- Regex `/^(\w+)\s*-->\s*\|([^\|]+)\|\s*(\w+)(BR)$/` (edge with inline label
before a bracketed target, anchored at both ends): captures
`(from, label, toId, toNodeDef)`. -/
def matchEdgeLabelNode (line : List Char) :
    Option (List Char × List Char × List Char × List Char) :=
  match takeWord line with
  | ([], _) => none
  | (fromW, r1) =>
    match dropLit ['-', '-', '>'] (skipSpaces r1) with
    | none => none
    | some r2 =>
      match skipSpaces r2 with
      | '|' :: r3 =>
        match r3.span (fun c => !(c == '|')) with
        | (content, '|' :: r4) =>
          if content.isEmpty then none
          else
            match takeWord (skipSpaces r4) with
            | ([], _) => none
            | (toId, r5) =>
              match matchBracketForm r5 with
              | some (toDef, []) => some (fromW, content, toId, toDef)
              | _ => none
        | _ => none
      | _ => none

/-- Regex `/^(\w+)\s*-->\s*(\w+)(?:\|([^\|]+)\|)?/` (plain edge, not
end-anchored): captures `(from, to, label?)`. -/
def matchPlainEdge (line : List Char) : Option (List Char × List Char × Option (List Char)) :=
  match takeWord line with
  | ([], _) => none
  | (fromW, r1) =>
    match dropLit ['-', '-', '>'] (skipSpaces r1) with
    | none => none
    | some r2 =>
      match takeWord (skipSpaces r2) with
      | ([], _) => none
      | (toW, r3) => some (fromW, toW, matchOptLabel r3)

/-- Regex `/^(\w+)\s*-\.\->\s*(\w+)(?:\|([^\|]+)\|)?/` (dashed edge, not
end-anchored): captures `(from, to, label?)`. -/
def matchDashedEdge (line : List Char) : Option (List Char × List Char × Option (List Char)) :=
  match takeWord line with
  | ([], _) => none
  | (fromW, r1) =>
    match dropLit ['-', '.', '-', '>'] (skipSpaces r1) with
    | none => none
    | some r2 =>
      match takeWord (skipSpaces r2) with
      | ([], _) => none
      | (toW, r3) => some (fromW, toW, matchOptLabel r3)

/-! ### MermaidParser -/

/-- `MermaidParser.parseNodeDefinition`: decode a node's label and shape from
its id and bracket-form text. -/
def parseNodeDefinition (id : String) (nodeDef : List Char) : GraphNode :=
  if ['[', '['].isPrefixOf nodeDef && [']', ']'].isSuffixOf nodeDef then
    { id := id, label := String.mk (trimChars (jsSlice nodeDef 2 2)), shape := .rectangle }
  else if ['['].isPrefixOf nodeDef && [']'].isSuffixOf nodeDef then
    { id := id, label := String.mk (trimChars (jsSlice nodeDef 1 1)), shape := .rectangle }
  else if ['(', '('].isPrefixOf nodeDef && [')', ')'].isSuffixOf nodeDef then
    { id := id, label := String.mk (trimChars (jsSlice nodeDef 2 2)), shape := .circle }
  else if ['{'].isPrefixOf nodeDef && ['}'].isSuffixOf nodeDef then
    { id := id, label := String.mk (trimChars (jsSlice nodeDef 1 1)), shape := .diamond }
  else
    { id := id, label := id, shape := .rectangle }

/-- Intermediate state of `parseFlowchartContent`: the node registry (a JS
`Map`) and the edge array. -/
structure ParseState where
  nodes : List (String × GraphNode)
  edges : List GraphEdge
deriving Repr

/-- The `if (!nodes.has(k)) nodes.set(k, {id: k, label: k, shape: 'rectangle'})`
idiom of the plain/dashed/labelled edge branches. -/
def ensureNode (ns : List (String × GraphNode)) (k : String) : List (String × GraphNode) :=
  if hasKey ns k then ns else setAssoc ns k { id := k, label := k, shape := .rectangle }

/-- One iteration of the `for (const line of lines)` loop of
`parseFlowchartContent`: the five regex branches in source order, first match
wins, unmatched lines leave the state unchanged. -/
def processLine (st : ParseState) (line : List Char) : ParseState :=
  match matchNodeDecl line with
  | some (id, nodeDef) =>
    { st with nodes := setAssoc st.nodes (String.mk id) (parseNodeDefinition (String.mk id) nodeDef) }
  | none =>
  match matchEdgeWithNodes line with
  | some (fromId, fromDef, toId, toDef, label) =>
    let fromS := String.mk fromId
    let toS := String.mk toId
    let ns := setAssoc (setAssoc st.nodes fromS (parseNodeDefinition fromS fromDef))
        toS (parseNodeDefinition toS toDef)
    { nodes := ns,
      edges := st.edges ++ [{ id := fromS ++ "-" ++ toS, fromId := fromS, toId := toS,
                              label := label.map (fun l => String.mk (trimChars l)),
                              type := .arrow }] }
  | none =>
  match matchEdgeLabelNode line with
  | some (fromW, label, toId, toDef) =>
    let fromS := String.mk fromW
    let toS := String.mk toId
    let ns := setAssoc (ensureNode st.nodes fromS) toS (parseNodeDefinition toS toDef)
    { nodes := ns,
      edges := st.edges ++ [{ id := fromS ++ "-" ++ toS, fromId := fromS, toId := toS,
                              label := some (String.mk (trimChars label)),
                              type := .arrow }] }
  | none =>
  match matchPlainEdge line with
  | some (fromW, toW, label) =>
    let fromS := String.mk fromW
    let toS := String.mk toW
    { nodes := ensureNode (ensureNode st.nodes fromS) toS,
      edges := st.edges ++ [{ id := fromS ++ "-" ++ toS, fromId := fromS, toId := toS,
                              label := label.map (fun l => String.mk (trimChars l)),
                              type := .arrow }] }
  | none =>
  match matchDashedEdge line with
  | some (fromW, toW, label) =>
    let fromS := String.mk fromW
    let toS := String.mk toW
    { nodes := ensureNode (ensureNode st.nodes fromS) toS,
      edges := st.edges ++ [{ id := fromS ++ "-" ++ toS, fromId := fromS, toId := toS,
                              label := label.map (fun l => String.mk (trimChars l)),
                              type := .dashed }] }
  | none => st

/-- The line preprocessing of `parseFlowchartContent`: split on newlines,
trim each line, drop empty and `%%`-comment lines. -/
def parseLines (code : List Char) : List (List Char) :=
  ((code.splitOn '\n').map trimChars).filter
    (fun l => !l.isEmpty && !(['%', '%'].isPrefixOf l))

/-- `MermaidParser.parseFlowchartContent`: split into lines, trim, drop empty
and `%%`-comment lines, fold the five matchers over each line, and return the
registry's values (insertion order) with the edge array. -/
def parseFlowchartContent (code : List Char) : List GraphNode × List GraphEdge :=
  let st := (parseLines code).foldl processLine { nodes := [], edges := [] }
  (st.nodes.map Prod.snd, st.edges)

/-- A registry operation performed on the node map by one matched line: an
unconditional `nodes.set(k, v)` from a decoded bracket form (`setOp`), or the
conditional create-if-absent of the default endpoint node (`ensureOp`). -/
inductive RegOp where
  | setOp (k : String) (v : GraphNode)
  | ensureOp (k : String)
deriving DecidableEq, Repr

/-- The key a registry operation touches. -/
def opKey : RegOp → String
  | .setOp k _ => k
  | .ensureOp k => k

/-- Apply one registry operation to the node map. -/
def applyOp (m : List (String × GraphNode)) : RegOp → List (String × GraphNode)
  | .setOp k v => setAssoc m k v
  | .ensureOp k => ensureNode m k

/-- The registry operations a line performs, branch for branch the ones of
`processLine` (the `setOp` values are the decoded bracket forms; the edge
bookkeeping is ignored). -/
def lineOps (line : List Char) : List RegOp :=
  match matchNodeDecl line with
  | some (id, nodeDef) =>
    [.setOp (String.mk id) (parseNodeDefinition (String.mk id) nodeDef)]
  | none =>
  match matchEdgeWithNodes line with
  | some (fromId, fromDef, toId, toDef, _) =>
    [.setOp (String.mk fromId) (parseNodeDefinition (String.mk fromId) fromDef),
     .setOp (String.mk toId) (parseNodeDefinition (String.mk toId) toDef)]
  | none =>
  match matchEdgeLabelNode line with
  | some (fromW, _, toId, toDef) =>
    [.ensureOp (String.mk fromW),
     .setOp (String.mk toId) (parseNodeDefinition (String.mk toId) toDef)]
  | none =>
  match matchPlainEdge line with
  | some (fromW, toW, _) => [.ensureOp (String.mk fromW), .ensureOp (String.mk toW)]
  | none =>
  match matchDashedEdge line with
  | some (fromW, toW, _) => [.ensureOp (String.mk fromW), .ensureOp (String.mk toW)]
  | none => []

/-- The registry operations of a whole line sequence, in input order. -/
def linesOps : List (List Char) → List RegOp
  | [] => []
  | l :: rest => lineOps l ++ linesOps rest

/-- Record a key in first-appearance order: append it only when new.  This is
the spec's "insertion order = order of first appearance" rule for the node
sequence. -/
def insKey (ks : List String) (k : String) : List String :=
  if k ∈ ks then ks else ks ++ [k]

/-- The value of the last unconditional registry write (`setOp`) for a key in
an operation list — the spec's "last bracket form seen wins" rule. -/
def lastSetFor (k : String) : List RegOp → Option GraphNode
  | [] => none
  | op :: rest =>
    match lastSetFor k rest with
    | some v => some v
    | none =>
      match op with
      | .setOp k' v => if k' = k then some v else none
      | .ensureOp _ => none

/-- Case-insensitive literal match (the regex `i` flag), returning the rest. -/
def dropLitCI : List Char → List Char → Option (List Char)
  | [], l => some l
  | _ :: _, [] => none
  | p :: ps, c :: cs => if c.toLower == p.toLower then dropLitCI ps cs else none

/-- The direction alternation `(TB|TD|BT|RL|LR)` of the header regex, tried in
source order, case-insensitively. -/
def dropDirection (l : List Char) : Option (List Char) :=
  match dropLitCI ['T', 'B'] l with
  | some r => some r
  | none =>
  match dropLitCI ['T', 'D'] l with
  | some r => some r
  | none =>
  match dropLitCI ['B', 'T'] l with
  | some r => some r
  | none =>
  match dropLitCI ['R', 'L'] l with
  | some r => some r
  | none => dropLitCI ['L', 'R'] l

/-- The header regex `/^(graph|flowchart)\s+(TB|TD|BT|RL|LR)\s*\n?/i` matched
at the start of the raw code; returns the remainder after the match.  The
trailing `\s*\n?` consumes the maximal whitespace run. -/
def matchHeader (code : List Char) : Option (List Char) :=
  let kw :=
    match dropLitCI ['g', 'r', 'a', 'p', 'h'] code with
    | some r => some r
    | none => dropLitCI ['f', 'l', 'o', 'w', 'c', 'h', 'a', 'r', 't'] code
  match kw with
  | none => none
  | some r1 =>
    match r1 with
    | [] => none
    | c :: r2 =>
      if isSpaceChar c then
        match dropDirection (r2.dropWhile isSpaceChar) with
        | none => none
        | some r3 => some (r3.dropWhile isSpaceChar)
      else none

/-- `MermaidParser.cleanMermaidCode`: strip the optional diagram-declaration
header (replace the regex match by the empty string), then trim. -/
def cleanMermaidCode (code : List Char) : List Char :=
  match matchHeader code with
  | some rest => trimChars rest
  | none => trimChars code

/-- `MermaidParser.parse`: reject empty/whitespace-only input with an error
result, otherwise clean the code, parse nodes and edges, and return a graph
result.  The source wraps the body in try/catch; the Lean model is a total
function, so the catch branch (returning an error result instead of
propagating) has no reachable counterpart. -/
def parse (mermaidCode : String) : ParseResult :=
  if (trimChars mermaidCode.data).isEmpty then
    { error := some { message := "Empty Mermaid code" } }
  else
    let cleanCode := cleanMermaidCode mermaidCode.data
    let res := parseFlowchartContent cleanCode
    { graph := some { nodes := res.1, edges := res.2 } }

/-! ### ELKLayoutEngine (`src/layout/elkLayout.ts`)

The external engine (`elkjs`) is opaque: `layout` is parameterised by a
function `ElkGraph → Except String ElkOutGraph`; `Except.error` stands for a
thrown/rejected engine call (caught by the source's try/catch).  JS `||`
defaults are modelled by `jsOrDefault` (`0`, `""` and `undefined` are falsy).
-/

/-- JS `v || d` on an optional number: `undefined` and `0` are falsy. -/
def jsOrDefault (v : Option Int) (d : Int) : Int :=
  match v with
  | none => d
  | some n => if n = 0 then d else n

/-- JS `s || d` on an optional string: `undefined` and `""` are falsy. -/
def jsOrString (v : Option String) (d : String) : String :=
  match v with
  | none => d
  | some s => if s = "" then d else s

/-- A child node of the ELK input graph built by `convertToELKGraph`:
id, label, width/height, the optional fixed coordinates of pinned nodes, the
`elk.position: fixed` directive, and the stashed `shape` field. -/
structure ElkChild where
  id : String
  label : String
  width : Int
  height : Int
  x : Option Int
  y : Option Int
  layoutOptions : Option (List (String × String))
  shape : Shape
deriving DecidableEq, Repr

/-- An edge of the ELK input graph: endpoint ids and the optional centered
label (each label text carries a constant `elk.edge.labels.placement: CENTER`
option, not repeated here). -/
structure ElkEdge where
  id : String
  sources : List String
  targets : List String
  labels : List String
deriving DecidableEq, Repr

/-- The ELK input graph built by `convertToELKGraph`. -/
structure ElkGraph where
  id : String
  layoutOptions : List (String × String)
  children : List ElkChild
  edges : List ElkEdge
deriving DecidableEq, Repr

/-- A child of the engine's result as read by `convertFromELKGraph` (the
source types it `any`): every field the conversion touches is optional,
`none` standing for `undefined`. -/
structure ElkOutChild where
  id : String
  label : Option String
  shape : Option Shape
  x : Option Int
  y : Option Int
  width : Option Int
  height : Option Int
deriving DecidableEq, Repr

/-- An edge section of the engine's result (`edge.sections`). -/
structure ElkOutSection where
  bendPoints : List Pos
deriving DecidableEq, Repr

/-- An edge of the engine's result as read by `convertFromELKGraph`. -/
structure ElkOutEdge where
  id : String
  sources : List String
  targets : List String
  labels : List String
  sections : List ElkOutSection
deriving DecidableEq, Repr

/-- The engine's result graph as read by `convertFromELKGraph`.  A missing
`children`/`edges` array (guarded by `?. … || []` in the source) is modelled
as the empty list. -/
structure ElkOutGraph where
  children : List ElkOutChild
  edges : List ElkOutEdge
  width : Option Int
  height : Option Int
deriving DecidableEq, Repr

/-- `ELKLayoutEngine.getDefaultNodeSize`: default node size by shape. -/
def getDefaultNodeSize (shape : Shape) : Size :=
  match shape with
  | .circle => { width := 80, height := 80 }
  | .diamond => { width := 100, height := 80 }
  | _ => { width := 120, height := 60 }

/-- The fixed root layout options of `convertToELKGraph`. -/
def elkRootOptions : List (String × String) :=
  [("elk.algorithm", "layered"),
   ("elk.layered.spacing.nodeNodeBetweenLayers", "100"),
   ("elk.layered.spacing.nodeNode", "80"),
   ("elk.direction", "DOWN"),
   ("elk.padding", "[top=50,left=50,bottom=50,right=50]"),
   ("elk.layered.thoroughness", "7"),
   ("elk.layered.unnecessaryBendpoints", "false")]

/-- `ELKLayoutEngine.convertToELKGraph`: map the graph model onto the ELK
schema.  A pinned (`isDragged`) node with a position passes its coordinates
through together with the `elk.position: fixed` directive; unpinned nodes
pass no coordinates.  Explicit sizes win over the shape defaults (`||`, so a
zero explicit size falls back to the default like in JS). -/
def convertToELKGraph (graph : Graph) : ElkGraph :=
  { id := "root",
    layoutOptions := elkRootOptions,
    children := graph.nodes.map (fun node =>
      { id := node.id,
        label := node.label,
        width := jsOrDefault (node.size.map Size.width) (getDefaultNodeSize node.shape).width,
        height := jsOrDefault (node.size.map Size.height) (getDefaultNodeSize node.shape).height,
        x := if node.isDragged && node.position.isSome then node.position.map Pos.x else none,
        y := if node.isDragged && node.position.isSome then node.position.map Pos.y else none,
        layoutOptions := if node.isDragged then some [("elk.position", "fixed")] else none,
        shape := node.shape }),
    edges := graph.edges.map (fun edge =>
      { id := edge.id,
        sources := [edge.fromId],
        targets := [edge.toId],
        labels := match edge.label with
                  | some l => [l]
                  | none => [] }) }

/-- The `new Map(graph.nodes.map(node => [node.id, node]))` snapshot taken by
`layout` before converting (later duplicate ids overwrite earlier ones). -/
def mkNodeMap (nodes : List GraphNode) : List (String × GraphNode) :=
  nodes.foldl (fun m n => setAssoc m n.id n) []

/-- `ELKLayoutEngine.convertFromELKGraph`: read the engine's result back into
the graph model, restoring each node's shape (from the echoed `shape` field,
else from the original node, else rectangle) and the original `pinned` flag;
missing coordinates default to `0`, missing sizes to `120×60` (JS `||`). -/
def convertFromELKGraph (elkGraph : ElkOutGraph) (originalNodes : List (String × GraphNode)) :
    Graph :=
  { nodes := elkGraph.children.map (fun child =>
      { id := child.id,
        label := jsOrString child.label child.id,
        shape := match child.shape with
                 | some s => s
                 | none =>
                   match getAssoc originalNodes child.id with
                   | some n => n.shape
                   | none => .rectangle,
        position := some { x := jsOrDefault child.x 0, y := jsOrDefault child.y 0 },
        size := some { width := jsOrDefault child.width 120, height := jsOrDefault child.height 60 },
        isDragged := match getAssoc originalNodes child.id with
                     | some n => n.isDragged
                     | none => false }),
    edges := elkGraph.edges.map (fun edge =>
      { id := edge.id,
        fromId := (edge.sources.headD ""),
        toId := (edge.targets.headD ""),
        label := edge.labels.head?,
        type := .arrow,
        points := some (match edge.sections.head? with
                        | some s => s.bendPoints
                        | none => []) }) }

/-- The `graph.nodes.map((node, index) => ...)` indexed map of
`fallbackLayout`, modelled with an explicit running index. -/
def mapWithIndex (f : Nat → GraphNode → GraphNode) : Nat → List GraphNode → List GraphNode
  | _, [] => []
  | i, n :: rest => f i n :: mapWithIndex f (i + 1) rest

/-- `ELKLayoutEngine.fallbackLayout`: deterministic grid layout used when the
engine fails — 4 nodes per row, 150/100 cell spacing, 50 margin, every node
120×60; bounds from the row/column counts (`Math.ceil(n/4) = (n+3)/4`). -/
def fallbackLayout (graph : Graph) : LayoutResult :=
  let nodes := mapWithIndex (fun index node =>
    { node with
      position := some { x := ((index % 4 : Nat) : Int) * 150 + 50,
                         y := ((index / 4 : Nat) : Int) * 100 + 50 },
      size := some { width := 120, height := 60 } }) 0 graph.nodes
  let maxRow : Nat := (graph.nodes.length + 3) / 4
  { graph := { nodes := nodes, edges := graph.edges },
    bounds := { width := 4 * 150 + 100, height := (maxRow : Int) * 100 + 100 } }

/-- `ELKLayoutEngine.layout`: empty-graph short-circuit, then convert, invoke
the engine, and convert back; an engine failure is caught and replaced by the
fallback grid layout.  The promise is modelled by `Except`: `Except.error`
would be an unhandled rejection, which the source never produces. -/
def layout (engine : ElkGraph → Except String ElkOutGraph) (graph : Graph) :
    Except String LayoutResult :=
  if graph.nodes.length = 0 then
    .ok { graph := { nodes := [], edges := [] }, bounds := { width := 800, height := 600 } }
  else
    let originalNodes := mkNodeMap graph.nodes
    let elkGraph := convertToELKGraph graph
    match engine elkGraph with
    | .ok layoutedGraph =>
      .ok { graph := convertFromELKGraph layoutedGraph originalNodes,
            bounds := { width := jsOrDefault layoutedGraph.width 800,
                        height := jsOrDefault layoutedGraph.height 600 } }
    | .error _ => .ok (fallbackLayout graph)

/-- The engine result that echoes the submitted graph unchanged, child for
child (elkjs returns the same object graph with geometry added; the echo keeps
the submitted geometry as is). -/
def echoEngineOut (eg : ElkGraph) : ElkOutGraph :=
  { children := eg.children.map (fun c =>
      { id := c.id, label := some c.label, shape := some c.shape,
        x := c.x, y := c.y, width := some c.width, height := some c.height }),
    edges := eg.edges.map (fun e =>
      { id := e.id, sources := e.sources, targets := e.targets,
        labels := e.labels, sections := [] }),
    width := none,
    height := none }

/-! ### Lemmas about the layout adapter -/

/-- Concrete pinned node used to exercise the pinned-node claims. -/
def pinnedNode : GraphNode :=
  { id := "A", label := "A", shape := .rectangle,
    position := some { x := 999, y := 999 }, isDragged := true }

/-- Concrete one-node graph whose only node is pinned at `(999, 999)`. -/
def gPinned : Graph := { nodes := [pinnedNode], edges := [] }

/-- An engine that always throws, driving `layout` onto the fallback path. -/
def failEngine : ElkGraph → Except String ElkOutGraph := fun _ => .error "ELK layout failed"

/-- An engine that honors every fixed-position directive by echoing the
submitted graph unchanged. -/
def echoEngine : ElkGraph → Except String ElkOutGraph := fun eg => .ok (echoEngineOut eg)

/-! ### Claim C4 -/

/-! ### Claim C7 -/

/-! ### Claim C5 -/

/-- Witness for C5: a concrete two-node graph under a failing engine. -/
def gTwo : Graph :=
  { nodes := [({ id := "A", label := "A", shape := .circle } : GraphNode),
              ({ id := "B", label := "B", shape := .diamond } : GraphNode)],
    edges := [] }

/-! ### Claim C8 -/

/-! ### Claim C1 -/

/-! ### Claim C6 -/

/-! ### Claim C9 -/

/-! ### Node-registry lemmas (towards C2 and C3) -/

/-- Every registry entry maps a key to a node carrying that key as its id
(all `nodes.set(k, v)` calls of the source satisfy `v.id = k`). -/
def nodesWellKeyed (m : List (String × GraphNode)) : Prop :=
  ∀ p ∈ m, (Prod.snd p).id = p.1

/-- Invariant carried through the line loop: the registry is well-keyed with
duplicate-free keys, and every accumulated edge's endpoints are registered. -/
def stateInv (st : ParseState) : Prop :=
  nodesWellKeyed st.nodes ∧ (st.nodes.map Prod.fst).Nodup ∧
  ∀ e ∈ st.edges, e.fromId ∈ st.nodes.map Prod.fst ∧ e.toId ∈ st.nodes.map Prod.fst

/-! ### Claim C2 -/

/-! ### Claim C3 -/

/-- The graph the source parses from `A[First]\nA-->B\nA[Second]`. -/
def mergedGraphA : Graph :=
  { nodes := [{ id := "A", label := "Second", shape := .rectangle },
              { id := "B", label := "B", shape := .rectangle }],
    edges := [{ id := "A-B", fromId := "A", toId := "B", label := none, type := .arrow }] }

/-- The graph the source parses from `A[First]\nA-->B\nA((Second))`. -/
def mergedGraphB : Graph :=
  { nodes := [{ id := "A", label := "Second", shape := .circle },
              { id := "B", label := "B", shape := .rectangle }],
    edges := [{ id := "A-B", fromId := "A", toId := "B", label := none, type := .arrow }] }

/-! ### Claim C10 -/

/-! ### Theorems -/

theorem jsOrDefault_some_self (v : Int) : jsOrDefault (some v) 0 = v := by
  by_cases h : v = 0 <;> simp [jsOrDefault, h]

theorem mapWithIndex_getElem? (f : Nat → GraphNode → GraphNode) (l : List GraphNode)
    (k i : Nat) : (mapWithIndex f k l)[i]? = (l[i]?).map (f (k + i)) := by
  induction l generalizing k i with
  | nil => simp [mapWithIndex]
  | cons n rest ih =>
    cases i with
    | zero => simp [mapWithIndex]
    | succ j =>
      have h := ih (k + 1) j
      simpa [mapWithIndex, Nat.add_assoc, Nat.add_comm 1 j] using h

/-- Claim C4: for every graph with zero nodes, `layout` resolves to a
`LayoutResult` with empty node and edge sequences and bounds exactly
`800×600`.  The result is the same for every engine — in particular for an
always-failing one — which is the observable content of "without invoking the
external layout engine". -/
theorem c4_empty_graph_short_circuit :
    ∀ (engine : ElkGraph → Except String ElkOutGraph) (es : List GraphEdge),
      layout engine { nodes := [], edges := es } =
        .ok { graph := { nodes := [], edges := [] },
              bounds := { width := 800, height := 600 } } := by
  intro engine es
  rfl

/-- Claim C7: `layout` resolves (never rejects) for every graph and every
engine behavior, and an engine failure is masked by the deterministic
fallback layout rather than propagated. -/
theorem c7_layout_never_rejects :
    ∀ (engine : ElkGraph → Except String ElkOutGraph) (g : Graph),
      (∃ r, layout engine g = .ok r) ∧
      (∀ msg, engine (convertToELKGraph g) = .error msg → g.nodes ≠ [] →
        layout engine g = .ok (fallbackLayout g)) := by
  intro engine g
  constructor
  · by_cases h : g.nodes.length = 0
    · exact ⟨{ graph := { nodes := [], edges := [] },
               bounds := { width := 800, height := 600 } }, by simp [layout, h]⟩
    · cases he : engine (convertToELKGraph g) with
      | ok out =>
        exact ⟨{ graph := convertFromELKGraph out (mkNodeMap g.nodes),
                 bounds := { width := jsOrDefault out.width 800,
                             height := jsOrDefault out.height 600 } },
               by simp [layout, h, he]⟩
      | error msg => exact ⟨fallbackLayout g, by simp [layout, h, he]⟩
  · intro msg he hne
    have h : ¬ g.nodes.length = 0 := by simpa [List.length_eq_zero] using hne
    simp [layout, h, he]

/-- Witness for C7 at a concrete graph and an always-failing engine. -/
theorem c7_layout_never_rejects_witness :
    (∃ r, layout failEngine gPinned = .ok r) ∧
    layout failEngine gPinned = .ok (fallbackLayout gPinned) :=
  ⟨(c7_layout_never_rejects failEngine gPinned).1,
   (c7_layout_never_rejects failEngine gPinned).2 "ELK layout failed" rfl (by decide)⟩

/-- Claim C5: whenever the engine throws or rejects, the fallback layout is
used, it assigns the `i`-th node (input order) position
`x = (i % 4)·150 + 50`, `y = ⌊i/4⌋·100 + 50` and size `120×60` regardless of
shape, and the bounds are `4·150 + 100` by `⌈n/4⌉·100 + 100`. -/
theorem c5_fallback_grid_formula :
    ∀ (engine : ElkGraph → Except String ElkOutGraph) (g : Graph) (msg : String),
      g.nodes ≠ [] →
      engine (convertToELKGraph g) = .error msg →
      layout engine g = .ok (fallbackLayout g) ∧
      (∀ (i : Nat) (node0 : GraphNode), g.nodes[i]? = some node0 →
        (fallbackLayout g).graph.nodes[i]? = some
          { node0 with
            position := some { x := ((i % 4 : Nat) : Int) * 150 + 50,
                               y := ((i / 4 : Nat) : Int) * 100 + 50 },
            size := some { width := 120, height := 60 } }) ∧
      (fallbackLayout g).bounds =
        { width := 4 * 150 + 100,
          height := (((g.nodes.length + 3) / 4 : Nat) : Int) * 100 + 100 } := by
  intro engine g msg hne he
  refine ⟨(c7_layout_never_rejects engine g).2 msg he hne, ?_, rfl⟩
  intro i node0 hi
  simp only [fallbackLayout]
  rw [mapWithIndex_getElem?]
  simp [hi]

theorem c5_fallback_grid_formula_witness :
    layout failEngine gTwo = .ok (fallbackLayout gTwo) ∧
    (fallbackLayout gTwo).graph.nodes[1]? = some
      { id := "B", label := "B", shape := .diamond,
        position := some { x := 1 * 150 + 50, y := 0 * 100 + 50 },
        size := some { width := 120, height := 60 } } ∧
    (fallbackLayout gTwo).bounds = { width := 700, height := 1 * 100 + 100 } := by
  have h := c5_fallback_grid_formula failEngine gTwo "ELK layout failed" (by decide) rfl
  refine ⟨h.1, ?_, by simpa using h.2.2⟩
  simpa using h.2.1 1 { id := "B", label := "B", shape := .diamond } (by rfl)

/-- Claim C8: converting a graph to the ELK schema and converting the engine's
(echoed) result back preserves every node's original shape, positionally over
the whole node sequence. -/
theorem c8_roundtrip_preserves_shape :
    ∀ g : Graph,
      ((convertFromELKGraph (echoEngineOut (convertToELKGraph g)) (mkNodeMap g.nodes)).nodes.map
          GraphNode.shape) = g.nodes.map GraphNode.shape := by
  intro g
  simp [convertFromELKGraph, echoEngineOut, convertToELKGraph, List.map_map, Function.comp]

/-- Counterexample to claim C1: the fallback path does not preserve a pinned
node's position.  `gPinned`'s only node is pinned at `(999, 999)`, yet after
`layout` under a failing engine its position is the grid cell `(50, 50)`. -/
theorem c1_counterexample_fallback_moves_pinned :
    pinnedNode.isDragged = true ∧
    pinnedNode.position = some { x := 999, y := 999 } ∧
    layout failEngine gPinned =
      .ok { graph := { nodes := [{ pinnedNode with
                                   position := some { x := 50, y := 50 },
                                   size := some { width := 120, height := 60 } }],
                       edges := [] },
            bounds := { width := 700, height := 200 } } ∧
    ((fallbackLayout gPinned).graph.nodes.map GraphNode.position) = [some { x := 50, y := 50 }] ∧
    (some { x := 50, y := 50 } : Option Pos) ≠ some { x := 999, y := 999 } := by
  exact ⟨rfl, rfl, rfl, rfl, by decide⟩

/-- Claim C1 (amended): on the engine-success path, a pinned node whose
submitted coordinates the engine echoes back (the `elk.position: fixed`
directive honored) resolves to exactly its original position `(x0, y0)`. -/
theorem c1_pinned_preserved_on_success :
    ∀ (engine : ElkGraph → Except String ElkOutGraph) (g : Graph) (out : ElkOutGraph)
      (n : GraphNode) (child : ElkOutChild) (x0 y0 : Int),
      g.nodes ≠ [] →
      engine (convertToELKGraph g) = .ok out →
      n ∈ g.nodes → n.isDragged = true → n.position = some { x := x0, y := y0 } →
      child ∈ out.children → child.id = n.id →
      child.x = some x0 → child.y = some y0 →
      ∃ r, layout engine g = .ok r ∧
        ∃ n' ∈ r.graph.nodes, n'.id = n.id ∧ n'.position = some { x := x0, y := y0 } := by
  intro engine g out n child x0 y0 hne he _hn _hd _hp hc hid hx hy
  have h : ¬ g.nodes.length = 0 := by simpa [List.length_eq_zero] using hne
  refine ⟨{ graph := convertFromELKGraph out (mkNodeMap g.nodes),
            bounds := { width := jsOrDefault out.width 800,
                        height := jsOrDefault out.height 600 } },
          by simp [layout, h, he], ?_⟩
  refine ⟨_, List.mem_map_of_mem _ hc, ?_, ?_⟩
  · simpa using hid
  · simp [hx, hy, jsOrDefault_some_self]

/-- Witness for the amended C1 at `gPinned` under the echoing engine. -/
theorem c1_pinned_preserved_on_success_witness :
    ∃ r, layout echoEngine gPinned = .ok r ∧
      ∃ n' ∈ r.graph.nodes, n'.id = pinnedNode.id ∧
        n'.position = some { x := 999, y := 999 } :=
  c1_pinned_preserved_on_success echoEngine gPinned
    (echoEngineOut (convertToELKGraph gPinned)) pinnedNode
    { id := "A", label := some "A", shape := some .rectangle,
      x := some 999, y := some 999, width := some 120, height := some 60 }
    999 999 (by decide) rfl (by decide) rfl rfl (by decide) rfl rfl rfl

/-- Claim C6: `parse` is total (the source's try/catch surfaces any internal
exception as an error result; the Lean model of the parsing pipeline is a
total function) and returns exactly one of a populated `graph` or a populated
`error` — never both, never neither. -/
theorem c6_parse_exactly_one_of_graph_error :
    ∀ code : String,
      ((parse code).graph.isSome = true ∧ (parse code).error = none) ∨
      ((parse code).graph = none ∧ (parse code).error.isSome = true) := by
  intro code
  by_cases h : (trimChars code.data).isEmpty = true <;> simp [parse, h]

theorem jsSlice_wrap (pre t suf : List Char) :
    jsSlice (pre ++ t ++ suf) pre.length suf.length = t := by
  rw [jsSlice, List.append_assoc, List.drop_left]
  have h2 : (pre ++ (t ++ suf)).length - suf.length - pre.length = t.length := by
    simp [List.length_append]
    omega
  rw [h2, List.take_left]

/-- Claim C9: shape decoding from a bracket form — `[[t]]` and `[t]` give a
rectangle, `((t))` a circle, `{t}` a diamond, anything else a rectangle
labelled with the id; bracketed labels are the bracket text trimmed.  The
`[t]` clause carries the source's own first guard (the `[[..]]` form takes
precedence) as a hypothesis, and the fallback clause carries all four guards
negated. -/
theorem c9_shape_decoding :
    ∀ (id : String) (t d : List Char),
      (parseNodeDefinition id ('[' :: '[' :: t ++ [']', ']']) =
        { id := id, label := String.mk (trimChars t), shape := .rectangle }) ∧
      ((['[', '['].isPrefixOf ('[' :: t ++ [']']) &&
          [']', ']'].isSuffixOf ('[' :: t ++ [']'])) = false →
        parseNodeDefinition id ('[' :: t ++ [']']) =
          { id := id, label := String.mk (trimChars t), shape := .rectangle }) ∧
      (parseNodeDefinition id ('(' :: '(' :: t ++ [')', ')']) =
        { id := id, label := String.mk (trimChars t), shape := .circle }) ∧
      (parseNodeDefinition id ('{' :: t ++ ['}']) =
        { id := id, label := String.mk (trimChars t), shape := .diamond }) ∧
      ((['[', '['].isPrefixOf d && [']', ']'].isSuffixOf d) = false →
        (['['].isPrefixOf d && [']'].isSuffixOf d) = false →
        (['(', '('].isPrefixOf d && [')', ')'].isSuffixOf d) = false →
        (['{'].isPrefixOf d && ['}'].isSuffixOf d) = false →
        parseNodeDefinition id d = { id := id, label := id, shape := .rectangle }) := by
  intro id t d
  refine ⟨?_, ?_, ?_, ?_, ?_⟩
  · have hs := jsSlice_wrap ['[', '['] t [']', ']']
    simp only [List.cons_append, List.nil_append, List.length_cons, List.length_nil,
      Nat.zero_add] at hs
    simp [parseNodeDefinition, List.isPrefixOf, List.isSuffixOf, List.reverse_append, hs]
  · intro hg
    have hs := jsSlice_wrap ['['] t [']']
    simp only [List.cons_append, List.nil_append, List.length_cons, List.length_nil,
      Nat.zero_add] at hs
    simp [List.isSuffixOf, List.reverse_append] at hg
    simp [parseNodeDefinition, List.isPrefixOf, List.isSuffixOf, List.reverse_append, hs]
    intro h1 h2
    exact absurd (hg h1) (by simp [h2])
  · have hs := jsSlice_wrap ['(', '('] t [')', ')']
    simp only [List.cons_append, List.nil_append, List.length_cons, List.length_nil,
      Nat.zero_add] at hs
    simp [parseNodeDefinition, List.isPrefixOf, List.isSuffixOf, List.reverse_append, hs]
  · have hs := jsSlice_wrap ['{'] t ['}']
    simp only [List.cons_append, List.nil_append, List.length_cons, List.length_nil,
      Nat.zero_add] at hs
    simp [parseNodeDefinition, List.isPrefixOf, List.isSuffixOf, List.reverse_append, hs]
  · intro h1 h2 h3 h4
    simp [parseNodeDefinition, h1, h2, h3, h4]

/-- Witness for C9 at concrete bracket forms. -/
theorem c9_shape_decoding_witness :
    parseNodeDefinition "A" ('[' :: '[' :: " Sub ".data ++ [']', ']']) =
      { id := "A", label := "Sub", shape := .rectangle } ∧
    parseNodeDefinition "A" ('[' :: " Sub ".data ++ [']']) =
      { id := "A", label := "Sub", shape := .rectangle } ∧
    parseNodeDefinition "A" ('(' :: '(' :: " Sub ".data ++ [')', ')']) =
      { id := "A", label := "Sub", shape := .circle } ∧
    parseNodeDefinition "A" ('{' :: " Sub ".data ++ ['}']) =
      { id := "A", label := "Sub", shape := .diamond } ∧
    parseNodeDefinition "A" "(x)".data = { id := "A", label := "A", shape := .rectangle } := by
  obtain ⟨h1, h2, h3, h4, h5⟩ := c9_shape_decoding "A" " Sub ".data "(x)".data
  refine ⟨?_, ?_, ?_, ?_, ?_⟩
  · rw [h1]; decide
  · rw [h2 (by decide)]; decide
  · rw [h3]; decide
  · rw [h4]; decide
  · rw [h5 (by decide) (by decide) (by decide) (by decide)]

theorem hasKey_iff (m : List (String × GraphNode)) (k : String) :
    hasKey m k = true ↔ k ∈ m.map Prod.fst := by
  simp [hasKey, List.mem_map]

theorem hasKey_cons (p : String × GraphNode) (m : List (String × GraphNode)) (k : String) :
    hasKey (p :: m) k = (p.1 == k || hasKey m k) := by
  simp [hasKey]

theorem keys_setAssoc (m : List (String × GraphNode)) (k : String) (v : GraphNode) :
    (setAssoc m k v).map Prod.fst =
      if hasKey m k then m.map Prod.fst else m.map Prod.fst ++ [k] := by
  induction m with
  | nil => simp [setAssoc, hasKey]
  | cons p rest ih =>
    obtain ⟨k', v'⟩ := p
    by_cases h : k' = k
    · subst h; simp [setAssoc, hasKey_cons]
    · by_cases h2 : hasKey rest k = true
      · simp [setAssoc, hasKey_cons, h, ih, h2]
      · simp only [Bool.not_eq_true] at h2
        simp [setAssoc, hasKey_cons, h, ih, h2]

theorem mem_keys_setAssoc (m : List (String × GraphNode)) (k : String) (v : GraphNode)
    (k2 : String) (h : k2 ∈ m.map Prod.fst) : k2 ∈ (setAssoc m k v).map Prod.fst := by
  rw [keys_setAssoc]
  by_cases h2 : hasKey m k = true
  · simpa [h2] using h
  · simp only [Bool.not_eq_true] at h2
    simp [h2, h]

theorem self_mem_keys_setAssoc (m : List (String × GraphNode)) (k : String) (v : GraphNode) :
    k ∈ (setAssoc m k v).map Prod.fst := by
  rw [keys_setAssoc]
  by_cases h2 : hasKey m k = true
  · simpa [h2] using (hasKey_iff m k).1 h2
  · simp only [Bool.not_eq_true] at h2
    simp [h2]

theorem nodup_keys_setAssoc (m : List (String × GraphNode)) (k : String) (v : GraphNode)
    (h : (m.map Prod.fst).Nodup) : ((setAssoc m k v).map Prod.fst).Nodup := by
  rw [keys_setAssoc]
  by_cases h2 : hasKey m k = true
  · simpa [h2] using h
  · simp only [Bool.not_eq_true] at h2
    have hk : k ∉ m.map Prod.fst := fun hm => by
      have := (hasKey_iff m k).2 hm
      simp [this] at h2
    simp [h2, List.nodup_append, h, hk]

theorem nodesWellKeyed_setAssoc (m : List (String × GraphNode)) (k : String) (v : GraphNode)
    (hm : nodesWellKeyed m) (hv : v.id = k) : nodesWellKeyed (setAssoc m k v) := by
  induction m with
  | nil => simpa [setAssoc, nodesWellKeyed] using hv
  | cons p rest ih =>
    obtain ⟨k', v'⟩ := p
    have hp : v'.id = k' := hm ⟨k', v'⟩ (by simp)
    have hrest : nodesWellKeyed rest := fun q hq => hm q (by simp [hq])
    by_cases h : k' = k
    · intro q hq
      simp [setAssoc, h] at hq
      rcases hq with rfl | hq
      · simpa [h] using hv
      · exact hrest q hq
    · intro q hq
      simp [setAssoc, h] at hq
      rcases hq with rfl | hq
      · exact hp
      · exact ih hrest q hq

theorem mem_values_of_mem_keys (m : List (String × GraphNode)) (k : String)
    (h : k ∈ m.map Prod.fst) (hm : nodesWellKeyed m) :
    ∃ n ∈ m.map Prod.snd, n.id = k := by
  simp only [List.mem_map] at h
  obtain ⟨p, hp, hpk⟩ := h
  exact ⟨p.2, List.mem_map_of_mem _ hp, by rw [hm p hp, hpk]⟩

theorem values_ids_eq_keys (m : List (String × GraphNode)) (hm : nodesWellKeyed m) :
    (m.map Prod.snd).map GraphNode.id = m.map Prod.fst := by
  induction m with
  | nil => simp
  | cons p rest ih =>
    have hp := hm p (by simp)
    have hrest : nodesWellKeyed rest := fun q hq => hm q (by simp [hq])
    simp [hp, ih hrest]

theorem parseNodeDefinition_id (id : String) (d : List Char) :
    (parseNodeDefinition id d).id = id := by
  unfold parseNodeDefinition
  split_ifs <;> rfl

theorem stateInv_setNode (ns : List (String × GraphNode)) (es : List GraphEdge)
    (k : String) (v : GraphNode) (h : stateInv ⟨ns, es⟩) (hv : v.id = k) :
    stateInv ⟨setAssoc ns k v, es⟩ :=
  ⟨nodesWellKeyed_setAssoc ns k v h.1 hv, nodup_keys_setAssoc ns k v h.2.1,
   fun e he => ⟨mem_keys_setAssoc ns k v _ (h.2.2 e he).1,
                mem_keys_setAssoc ns k v _ (h.2.2 e he).2⟩⟩

theorem stateInv_ensureNode (ns : List (String × GraphNode)) (es : List GraphEdge)
    (k : String) (h : stateInv ⟨ns, es⟩) : stateInv ⟨ensureNode ns k, es⟩ := by
  unfold ensureNode
  by_cases h2 : hasKey ns k = true
  · simpa [h2] using h
  · simp only [Bool.not_eq_true] at h2
    simpa [h2] using stateInv_setNode ns es k _ h rfl

theorem mem_keys_ensureNode_self (ns : List (String × GraphNode)) (k : String) :
    k ∈ (ensureNode ns k).map Prod.fst := by
  unfold ensureNode
  by_cases h2 : hasKey ns k = true
  · simpa [h2] using (hasKey_iff ns k).1 h2
  · simp only [Bool.not_eq_true] at h2
    simpa [h2] using self_mem_keys_setAssoc ns k _

theorem mem_keys_ensureNode_mono (ns : List (String × GraphNode)) (k k2 : String)
    (h : k2 ∈ ns.map Prod.fst) : k2 ∈ (ensureNode ns k).map Prod.fst := by
  unfold ensureNode
  by_cases h2 : hasKey ns k = true
  · simpa [h2] using h
  · simp only [Bool.not_eq_true] at h2
    simpa [h2] using mem_keys_setAssoc ns k _ _ h

theorem stateInv_addEdge (ns : List (String × GraphNode)) (es : List GraphEdge)
    (e : GraphEdge) (h : stateInv ⟨ns, es⟩)
    (hf : e.fromId ∈ ns.map Prod.fst) (ht : e.toId ∈ ns.map Prod.fst) :
    stateInv ⟨ns, es ++ [e]⟩ := by
  refine ⟨h.1, h.2.1, fun e' he' => ?_⟩
  rcases List.mem_append.1 he' with he' | he'
  · exact h.2.2 e' he'
  · simp at he'
    subst he'
    exact ⟨hf, ht⟩

theorem stateInv_processLine (st : ParseState) (line : List Char) (h : stateInv st) :
    stateInv (processLine st line) := by
  obtain ⟨ns, es⟩ := st
  unfold processLine
  split
  · next id nodeDef _ =>
    exact stateInv_setNode ns es _ _ h (parseNodeDefinition_id _ _)
  · split
    · next f fd t td lab _ =>
      refine stateInv_addEdge _ _ _ ?_ ?_ ?_
      · exact stateInv_setNode _ es _ _
          (stateInv_setNode ns es _ _ h (parseNodeDefinition_id _ _))
          (parseNodeDefinition_id _ _)
      · exact mem_keys_setAssoc _ _ _ _ (self_mem_keys_setAssoc ns _ _)
      · exact self_mem_keys_setAssoc _ _ _
    · split
      · next f lab t td _ =>
        refine stateInv_addEdge _ _ _ ?_ ?_ ?_
        · exact stateInv_setNode _ es _ _ (stateInv_ensureNode ns es _ h)
            (parseNodeDefinition_id _ _)
        · exact mem_keys_setAssoc _ _ _ _ (mem_keys_ensureNode_self ns _)
        · exact self_mem_keys_setAssoc _ _ _
      · split
        · next f t lab _ =>
          refine stateInv_addEdge _ _ _ ?_ ?_ ?_
          · exact stateInv_ensureNode _ es _ (stateInv_ensureNode ns es _ h)
          · exact mem_keys_ensureNode_mono _ _ _ (mem_keys_ensureNode_self ns _)
          · exact mem_keys_ensureNode_self _ _
        · split
          · next f t lab _ =>
            refine stateInv_addEdge _ _ _ ?_ ?_ ?_
            · exact stateInv_ensureNode _ es _ (stateInv_ensureNode ns es _ h)
            · exact mem_keys_ensureNode_mono _ _ _ (mem_keys_ensureNode_self ns _)
            · exact mem_keys_ensureNode_self _ _
          · exact h

theorem stateInv_foldl (lines : List (List Char)) (st : ParseState) (h : stateInv st) :
    stateInv (lines.foldl processLine st) := by
  induction lines generalizing st with
  | nil => simpa using h
  | cons l rest ih => exact ih _ (stateInv_processLine st l h)

theorem parseFlowchartContent_resolved (code : List Char) :
    ∀ e ∈ (parseFlowchartContent code).2,
      (∃ n ∈ (parseFlowchartContent code).1, n.id = e.fromId) ∧
      (∃ n ∈ (parseFlowchartContent code).1, n.id = e.toId) := by
  intro e he
  have hinv := stateInv_foldl (parseLines code) ⟨[], []⟩
    ⟨by simp [nodesWellKeyed], by simp, by simp⟩
  simp only [parseFlowchartContent] at he ⊢
  obtain ⟨hf, ht⟩ := hinv.2.2 e he
  exact ⟨mem_values_of_mem_keys _ _ hf hinv.1, mem_values_of_mem_keys _ _ ht hinv.1⟩

theorem parseFlowchartContent_nodup (code : List Char) :
    ((parseFlowchartContent code).1.map GraphNode.id).Nodup := by
  have hinv := stateInv_foldl (parseLines code) ⟨[], []⟩
    ⟨by simp [nodesWellKeyed], by simp, by simp⟩
  simp only [parseFlowchartContent]
  rw [values_ids_eq_keys _ hinv.1]
  exact hinv.2.1

/-- Claim C2: whenever `parse` returns a graph, every edge's `from`/`to`
resolves to a node present in the same graph — no dangling references. -/
theorem c2_no_dangling_edges :
    ∀ (code : String) (g : Graph), (parse code).graph = some g →
      ∀ e ∈ g.edges,
        (∃ n ∈ g.nodes, n.id = e.fromId) ∧ (∃ n ∈ g.nodes, n.id = e.toId) := by
  intro code g hg
  by_cases h : (trimChars code.data).isEmpty = true
  · simp [parse, h] at hg
  · simp only [parse, h] at hg
    simp at hg
    subst hg
    exact parseFlowchartContent_resolved (cleanMermaidCode code.data)

/-- Witness for C2 at the concrete input `"A-->B"`: both endpoints of the
parsed edge resolve to nodes of the parsed graph. -/
theorem c2_no_dangling_edges_witness :
    (∃ n ∈ [({ id := "A", label := "A", shape := .rectangle } : GraphNode),
            ({ id := "B", label := "B", shape := .rectangle } : GraphNode)], n.id = "A") ∧
    (∃ n ∈ [({ id := "A", label := "A", shape := .rectangle } : GraphNode),
            ({ id := "B", label := "B", shape := .rectangle } : GraphNode)], n.id = "B") :=
  c2_no_dangling_edges "A-->B"
    { nodes := [{ id := "A", label := "A", shape := .rectangle },
                { id := "B", label := "B", shape := .rectangle }],
      edges := [{ id := "A-B", fromId := "A", toId := "B", label := none, type := .arrow }] }
    (by decide)
    { id := "A-B", fromId := "A", toId := "B", label := none, type := .arrow }
    (by decide)

lemma getAssoc_setAssoc_self (m : List (String × GraphNode)) (k : String) (v : GraphNode) :
    getAssoc (setAssoc m k v) k = some v := by
  induction m with
  | nil => simp [setAssoc, getAssoc]
  | cons p rest ih =>
    obtain ⟨k', v'⟩ := p
    by_cases h : k' = k <;> simp [setAssoc, getAssoc, h, ih]

lemma getAssoc_setAssoc_ne (m : List (String × GraphNode)) (k : String) (v : GraphNode)
    (k2 : String) (h : k ≠ k2) : getAssoc (setAssoc m k v) k2 = getAssoc m k2 := by
  induction m with
  | nil => simp [setAssoc, getAssoc, h]
  | cons p rest ih =>
    obtain ⟨k', v'⟩ := p
    by_cases hk : k' = k
    · subst hk
      simp [setAssoc, getAssoc, h]
    · simp [setAssoc, getAssoc, hk, ih]

lemma mem_of_getAssoc (m : List (String × GraphNode)) (k : String) (v : GraphNode)
    (h : getAssoc m k = some v) : (k, v) ∈ m := by
  induction m with
  | nil => simp [getAssoc] at h
  | cons p rest ih =>
    obtain ⟨k', v'⟩ := p
    by_cases hk : k' = k
    · subst hk
      simp [getAssoc] at h
      simp [h]
    · simp [getAssoc, hk] at h
      simp [ih h]

lemma snd_unique_of_nodup_keys (m : List (String × GraphNode))
    (hnd : (m.map Prod.fst).Nodup) (k : String) (a b : GraphNode)
    (ha : (k, a) ∈ m) (hb : (k, b) ∈ m) : a = b := by
  induction m with
  | nil => simp at ha
  | cons p rest ih =>
    obtain ⟨k', v'⟩ := p
    simp at hnd
    rcases List.mem_cons.1 ha with ha1 | ha1 <;> rcases List.mem_cons.1 hb with hb1 | hb1
    · injection ha1 with h1 h2
      injection hb1 with h3 h4
      rw [h2, h4]
    · exfalso
      injection ha1 with h1 h2
      subst h1
      exact hnd.1 b hb1
    · exfalso
      injection hb1 with h1 h2
      subst h1
      exact hnd.1 a ha1
    · exact ih hnd.2 ha1 hb1

lemma hasKey_applyOp_mono (m : List (String × GraphNode)) (op : RegOp) (k : String)
    (h : hasKey m k = true) : hasKey (applyOp m op) k = true := by
  cases op with
  | setOp k' v =>
    exact (hasKey_iff _ _).2 (mem_keys_setAssoc m k' v k ((hasKey_iff _ _).1 h))
  | ensureOp k' =>
    exact (hasKey_iff _ _).2 (mem_keys_ensureNode_mono m k' k ((hasKey_iff _ _).1 h))

lemma keys_applyOp (m : List (String × GraphNode)) (op : RegOp) :
    (applyOp m op).map Prod.fst = insKey (m.map Prod.fst) (opKey op) := by
  cases op with
  | setOp k v =>
    simp only [applyOp, opKey]
    rw [keys_setAssoc]
    by_cases h : hasKey m k = true
    · rw [if_pos h, insKey, if_pos ((hasKey_iff m k).1 h)]
    · simp only [Bool.not_eq_true] at h
      rw [if_neg (by simp [h]), insKey,
        if_neg (fun hm => by rw [(hasKey_iff m k).2 hm] at h; exact absurd h (by decide))]
  | ensureOp k =>
    simp only [applyOp, opKey]
    rw [ensureNode]
    by_cases h : hasKey m k = true
    · rw [if_pos h, insKey, if_pos ((hasKey_iff m k).1 h)]
    · simp only [Bool.not_eq_true] at h
      rw [if_neg (by simp [h]), keys_setAssoc, if_neg (by simp [h]), insKey,
        if_neg (fun hm => by rw [(hasKey_iff m k).2 hm] at h; exact absurd h (by decide))]

lemma keys_foldl_applyOp (ops : List RegOp) (m : List (String × GraphNode)) :
    (ops.foldl applyOp m).map Prod.fst = (ops.map opKey).foldl insKey (m.map Prod.fst) := by
  induction ops generalizing m with
  | nil => rfl
  | cons op rest ih => simp [ih, keys_applyOp]


lemma getAssoc_foldl_of_no_set (ops : List RegOp) (k : String) :
    ∀ m, lastSetFor k ops = none → hasKey m k = true →
      getAssoc (ops.foldl applyOp m) k = getAssoc m k := by
  induction ops with
  | nil =>
    intro m _ _
    rfl
  | cons op rest ih =>
    intro m hset hk
    cases hr : lastSetFor k rest with
    | some v =>
      simp only [lastSetFor, hr] at hset
      exact Option.noConfusion hset
    | none =>
      have h2 : getAssoc (applyOp m op) k = getAssoc m k := by
        cases op with
        | setOp k' v =>
          have hset' : (if k' = k then some v else none) = none := by
            simpa only [lastSetFor, hr] using hset
          have hk' : k' ≠ k := by
            intro hkk
            rw [if_pos hkk] at hset'
            exact Option.noConfusion hset'
          exact getAssoc_setAssoc_ne m k' v k hk'
        | ensureOp k' =>
          show getAssoc (ensureNode m k') k = getAssoc m k
          rw [ensureNode]
          by_cases h3 : hasKey m k' = true
          · rw [if_pos h3]
          · simp only [Bool.not_eq_true] at h3
            rw [if_neg (by simp [h3])]
            have hk' : k' ≠ k := by
              intro hkk
              subst hkk
              rw [hk] at h3
              exact Bool.noConfusion h3
            exact getAssoc_setAssoc_ne m k' _ k hk'
      rw [List.foldl_cons, ih (applyOp m op) hr (hasKey_applyOp_mono m op k hk), h2]

lemma getAssoc_foldl_lastSet (ops : List RegOp) (k : String) (v : GraphNode) :
    ∀ m, lastSetFor k ops = some v →
      getAssoc (ops.foldl applyOp m) k = some v := by
  induction ops with
  | nil =>
    intro m h
    simp [lastSetFor] at h
  | cons op rest ih =>
    intro m h
    cases hr : lastSetFor k rest with
    | some v2 =>
      have hv : v2 = v := by
        simp only [lastSetFor, hr] at h
        exact Option.some.inj h
      subst hv
      rw [List.foldl_cons]
      exact ih (applyOp m op) hr
    | none =>
      cases op with
      | setOp k2 v2 =>
        have h2 : (if k2 = k then some v2 else none) = some v := by
          simpa only [lastSetFor, hr] using h
        by_cases h4 : k2 = k
        · subst h4
          rw [if_pos rfl] at h2
          have hv : v2 = v := Option.some.inj h2
          subst hv
          rw [List.foldl_cons]
          have hkey : hasKey (applyOp m (.setOp k2 v2)) k2 = true :=
            (hasKey_iff _ _).2 (self_mem_keys_setAssoc m k2 v2)
          rw [getAssoc_foldl_of_no_set rest k2 _ hr hkey]
          exact getAssoc_setAssoc_self m k2 v2
        · rw [if_neg h4] at h2
          exact Option.noConfusion h2
      | ensureOp k2 =>
        have h2 : (none : Option GraphNode) = some v := by
          simpa only [lastSetFor, hr] using h
        exact Option.noConfusion h2

lemma processLine_nodes_eq (st : ParseState) (line : List Char) :
    (processLine st line).nodes = (lineOps line).foldl applyOp st.nodes := by
  obtain ⟨ns, es⟩ := st
  unfold processLine lineOps
  cases h1 : matchNodeDecl line with
  | some r =>
    obtain ⟨id, nodeDef⟩ := r
    rfl
  | none =>
  cases h2 : matchEdgeWithNodes line with
  | some r =>
    obtain ⟨f, fd, t, td, lab⟩ := r
    rfl
  | none =>
  cases h3 : matchEdgeLabelNode line with
  | some r =>
    obtain ⟨f, lab, t, td⟩ := r
    rfl
  | none =>
  cases h4 : matchPlainEdge line with
  | some r =>
    obtain ⟨f, t, lab⟩ := r
    rfl
  | none =>
  cases h5 : matchDashedEdge line with
  | some r =>
    obtain ⟨f, t, lab⟩ := r
    rfl
  | none => rfl

lemma foldl_processLine_nodes (lines : List (List Char)) (st : ParseState) :
    (lines.foldl processLine st).nodes = (linesOps lines).foldl applyOp st.nodes := by
  induction lines generalizing st with
  | nil => rfl
  | cons l rest ih =>
    rw [List.foldl_cons, ih, linesOps, List.foldl_append, processLine_nodes_eq]

/-! ### Claim C3 (general merge rule) -/

/-- Claim C3: in every parsed graph each node id occurs exactly once; the node
sequence lists ids in order of first appearance of a registry write (`insKey`
keeps the first occurrence of each operation key); and for every id the node
stored is the decoded value of the last unconditional bracket-form write
(`lastSetFor`), regardless of interleaved default creates — plus the claim's
own example and a shape-changing variant, concretely. -/
theorem c3_node_merge_last_write_wins :
    (∀ (code : String) (g : Graph), (parse code).graph = some g →
      (g.nodes.map GraphNode.id).Nodup) ∧
    (∀ (code : String) (g : Graph), (parse code).graph = some g →
      g.nodes.map GraphNode.id =
        ((linesOps (parseLines (cleanMermaidCode code.data))).map opKey).foldl insKey [] ∧
      (∀ (k : String) (v : GraphNode),
        lastSetFor k (linesOps (parseLines (cleanMermaidCode code.data))) = some v →
        v ∈ g.nodes ∧ v.id = k ∧ ∀ n ∈ g.nodes, n.id = k → n = v)) ∧
    (parse "A[First]\nA-->B\nA[Second]").graph = some mergedGraphA ∧
    (parse "A[First]\nA-->B\nA((Second))").graph = some mergedGraphB := by
  refine ⟨?_, ?_, by decide, by decide⟩
  · intro code g hg
    by_cases h : (trimChars code.data).isEmpty = true
    · simp [parse, h] at hg
    · simp only [parse, h] at hg
      simp at hg
      subst hg
      exact parseFlowchartContent_nodup (cleanMermaidCode code.data)
  · intro code g hg
    by_cases h : (trimChars code.data).isEmpty = true
    · simp [parse, h] at hg
    · simp only [parse, h] at hg
      simp at hg
      subst hg
      have hinv := stateInv_foldl (parseLines (cleanMermaidCode code.data)) ⟨[], []⟩
        ⟨by simp [nodesWellKeyed], by simp, by simp⟩
      have hnodes : ((parseLines (cleanMermaidCode code.data)).foldl processLine
          ⟨[], []⟩).nodes =
          (linesOps (parseLines (cleanMermaidCode code.data))).foldl applyOp [] := by
        rw [foldl_processLine_nodes]
      constructor
      · simp only [parseFlowchartContent]
        rw [values_ids_eq_keys _ hinv.1, hnodes, keys_foldl_applyOp]
        rfl
      · intro k v hlast
        have hget := getAssoc_foldl_lastSet (linesOps (parseLines (cleanMermaidCode code.data)))
          k v [] hlast
        rw [← hnodes] at hget
        have hmem := mem_of_getAssoc _ _ _ hget
        simp only [parseFlowchartContent]
        refine ⟨List.mem_map_of_mem Prod.snd hmem, hinv.1 _ hmem, ?_⟩
        intro n hn hid
        obtain ⟨p, hp, hpe⟩ := List.mem_map.1 hn
        obtain ⟨pk, pv⟩ := p
        have hpk : pk = k := by
          have := hinv.1 ⟨pk, pv⟩ hp
          simp at this hpe
          rw [← this, hpe, hid]
        subst hpk
        have hpe2 : pv = n := hpe
        subst hpe2
        exact snd_unique_of_nodup_keys _ hinv.2.1 pk pv v hp hmem

/-- Witness for C3: the uniqueness, first-appearance-order and
last-bracket-form clauses applied at the claim's example input. -/
theorem c3_node_merge_last_write_wins_witness :
    (mergedGraphA.nodes.map GraphNode.id).Nodup ∧
    mergedGraphA.nodes.map GraphNode.id = ["A", "B"] ∧
    ({ id := "A", label := "Second", shape := .rectangle } : GraphNode) ∈ mergedGraphA.nodes := by
  have h := c3_node_merge_last_write_wins
  have hg := h.2.2.1
  have h2 := h.2.1 "A[First]\nA-->B\nA[Second]" mergedGraphA hg
  refine ⟨h.1 "A[First]\nA-->B\nA[Second]" mergedGraphA hg, ?_, ?_⟩
  · rw [h2.1]
    decide
  · exact (h2.2 "A" { id := "A", label := "Second", shape := .rectangle } (by decide)).1

lemma space_not_word (c : Char) (h : isSpaceChar c = true) : isWordChar c = false := by
  simp [isSpaceChar] at h
  rcases h with ((rfl | rfl) | rfl) | rfl <;> decide

lemma word_not_space (c : Char) (h : isWordChar c = true) : isSpaceChar c = false := by
  by_cases hs : isSpaceChar c = true
  · rw [space_not_word c hs] at h
    exact absurd h (by decide)
  · simpa using hs

lemma word_ne_bar (c : Char) (h : isWordChar c = true) : c ≠ '|' := by
  rintro rfl
  exact absurd h (by decide)

lemma word_ne_of (c d : Char) (h : isWordChar c = true) (hd : isWordChar d = false) : c ≠ d := by
  rintro rfl
  rw [h] at hd
  exact absurd hd (by decide)

lemma takeWord_all_word (w r : List Char) (hw : ∀ c ∈ w, isWordChar c = true)
    (hr : ∀ c, r.head? = some c → isWordChar c = false) : takeWord (w ++ r) = (w, r) := by
  induction w with
  | nil =>
    cases r with
    | nil => rfl
    | cons c rest => simp [takeWord, hr c rfl]
  | cons c w' ih =>
    have hc : isWordChar c = true := hw c (by simp)
    have hw' : ∀ d ∈ w', isWordChar d = true := fun d hd => hw d (by simp [hd])
    simp [takeWord, hc, ih hw']

lemma skipSpaces_append (sp r : List Char) (hsp : ∀ c ∈ sp, isSpaceChar c = true)
    (hr : ∀ c, r.head? = some c → isSpaceChar c = false) : skipSpaces (sp ++ r) = r := by
  induction sp with
  | nil =>
    cases r with
    | nil => rfl
    | cons c rest => simp [skipSpaces, hr c rfl]
  | cons c sp' ih =>
    have hc : isSpaceChar c = true := hsp c (by simp)
    have hsp' : ∀ d ∈ sp', isSpaceChar d = true := fun d hd => hsp d (by simp [hd])
    simp [skipSpaces, hc] at ih ⊢
    exact ih hsp'

lemma dropLit_append (lit r : List Char) : dropLit lit (lit ++ r) = some r := by
  induction lit with
  | nil => rfl
  | cons c lit' ih => simp [dropLit, ih]

lemma matchBracketForm_none_of_head (c : Char) (l : List Char)
    (h1 : c ≠ '[') (h2 : c ≠ '(') (h3 : c ≠ '{') : matchBracketForm (c :: l) = none := by
  rw [matchBracketForm.eq_def]
  split
  · next rest heq => exact absurd (List.cons.inj heq).1 h1
  · next rest heq => exact absurd (List.cons.inj heq).1 h2
  · next rest heq => exact absurd (List.cons.inj heq).1 h3
  · rfl

lemma matchOptLabel_none_of_head (c : Char) (l : List Char) (h : c ≠ '|') :
    matchOptLabel (c :: l) = none := by
  rw [matchOptLabel.eq_def]
  split
  · next rest heq => exact absurd (List.cons.inj heq).1 h
  · rfl


lemma head_not_word_of_space_or (sp : List Char) (d : Char) (X : List Char)
    (hsp : ∀ c ∈ sp, isSpaceChar c = true) (hd : isWordChar d = false) :
    ∀ c, (sp ++ d :: X).head? = some c → isWordChar c = false := by
  intro c hc
  cases sp with
  | nil =>
    simp at hc
    subst hc
    exact hd
  | cons c' sp' =>
    simp at hc
    subst hc
    exact space_not_word c' (hsp c' (by simp))

lemma head_not_space_of_word_front (w br : List Char) (hw : ∀ c ∈ w, isWordChar c = true)
    (hn : w ≠ []) : ∀ c, (w ++ br).head? = some c → isSpaceChar c = false := by
  cases w with
  | nil => exact absurd rfl hn
  | cons a w' =>
    intro c hc
    simp at hc
    subst hc
    exact word_not_space a (hw a (by simp))

lemma matchBracketForm_none_sp_dash (sp X : List Char)
    (hsp : ∀ c ∈ sp, isSpaceChar c = true) :
    matchBracketForm (sp ++ '-' :: X) = none := by
  cases sp with
  | nil => exact matchBracketForm_none_of_head '-' X (by decide) (by decide) (by decide)
  | cons c sp' =>
    have hc := hsp c (by simp)
    simp only [List.cons_append]
    exact matchBracketForm_none_of_head c _
      (by rintro rfl; exact absurd hc (by decide))
      (by rintro rfl; exact absurd hc (by decide))
      (by rintro rfl; exact absurd hc (by decide))


/-- Claim C10: a line `<id> --> <id><bracketForm>` with no `|label|` is
consumed by the plain-edge matcher (the first three matchers fail): it appends
an unlabelled arrow edge between the two ids, creates the target as a default
rectangle labelled with its own id when it is not yet registered, and the
trailing bracket form is discarded — it reaches no registry write. -/
theorem c10_plain_edge_creates_default_target :
    ∀ (ns : List (String × GraphNode)) (es : List GraphEdge)
      (w1 sp1 sp2 w2 br : List Char) (bh : Char),
      (∀ c ∈ w1, isWordChar c = true) → w1 ≠ [] →
      (∀ c ∈ w2, isWordChar c = true) → w2 ≠ [] →
      (∀ c ∈ sp1, isSpaceChar c = true) →
      (∀ c ∈ sp2, isSpaceChar c = true) →
      br.head? = some bh → (bh = '[' ∨ bh = '(' ∨ bh = '{') →
      processLine ⟨ns, es⟩ (w1 ++ (sp1 ++ ('-' :: '-' :: '>' :: (sp2 ++ (w2 ++ br))))) =
        ⟨ensureNode (ensureNode ns (String.mk w1)) (String.mk w2),
         es ++ [{ id := String.mk w1 ++ "-" ++ String.mk w2, fromId := String.mk w1,
                  toId := String.mk w2, label := none, type := .arrow }]⟩ ∧
      (hasKey ns (String.mk w2) = false → String.mk w1 ≠ String.mk w2 →
        getAssoc (ensureNode (ensureNode ns (String.mk w1)) (String.mk w2)) (String.mk w2) =
          some { id := String.mk w2, label := String.mk w2, shape := .rectangle }) := by
  intro ns es w1 sp1 sp2 w2 br bh hw1 hn1 hw2 hn2 hsp1 hsp2 hbh hbrk
  have hbrWord : ∀ c, br.head? = some c → isWordChar c = false := by
    intro c hc
    rw [hbh] at hc
    injection hc with h
    subst h
    rcases hbrk with rfl | rfl | rfl <;> decide
  have hA : takeWord (w1 ++ (sp1 ++ ('-' :: '-' :: '>' :: (sp2 ++ (w2 ++ br))))) =
      (w1, sp1 ++ ('-' :: '-' :: '>' :: (sp2 ++ (w2 ++ br)))) :=
    takeWord_all_word _ _ hw1 (head_not_word_of_space_or sp1 '-' _ hsp1 (by decide))
  have hS1 : skipSpaces (sp1 ++ ('-' :: '-' :: '>' :: (sp2 ++ (w2 ++ br)))) =
      '-' :: '-' :: '>' :: (sp2 ++ (w2 ++ br)) := by
    refine skipSpaces_append _ _ hsp1 ?_
    intro c hc
    simp at hc
    subst hc
    decide
  have hD : dropLit ['-', '-', '>'] ('-' :: '-' :: '>' :: (sp2 ++ (w2 ++ br))) =
      some (sp2 ++ (w2 ++ br)) := dropLit_append ['-', '-', '>'] _
  have hS2 : skipSpaces (sp2 ++ (w2 ++ br)) = w2 ++ br :=
    skipSpaces_append _ _ hsp2 (head_not_space_of_word_front w2 br hw2 hn2)
  have hT2 : takeWord (w2 ++ br) = (w2, br) := takeWord_all_word _ _ hw2 hbrWord
  have hL : matchOptLabel br = none := by
    cases br with
    | nil => rfl
    | cons c rest =>
      have hc : c = bh := by simpa using hbh
      subst hc
      exact matchOptLabel_none_of_head c rest (by rcases hbrk with rfl | rfl | rfl <;> decide)
  obtain ⟨c1, w1', rfl⟩ : ∃ c1 w1', w1 = c1 :: w1' := by
    cases w1 with
    | nil => exact absurd rfl hn1
    | cons a b => exact ⟨a, b, rfl⟩
  obtain ⟨c2, w2', rfl⟩ : ∃ c2 w2', w2 = c2 :: w2' := by
    cases w2 with
    | nil => exact absurd rfl hn2
    | cons a b => exact ⟨a, b, rfl⟩
  have hM1 : matchNodeDecl ((c1 :: w1') ++ (sp1 ++ ('-' :: '-' :: '>' :: (sp2 ++ ((c2 :: w2') ++ br))))) = none := by
    rw [matchNodeDecl.eq_def, hA]
    dsimp only
    rw [matchBracketForm_none_sp_dash sp1 _ hsp1]
  have hM2 : matchEdgeWithNodes ((c1 :: w1') ++ (sp1 ++ ('-' :: '-' :: '>' :: (sp2 ++ ((c2 :: w2') ++ br))))) = none := by
    rw [matchEdgeWithNodes.eq_def, hA]
    dsimp only
    rw [matchBracketForm_none_sp_dash sp1 _ hsp1]
  have hM3 : matchEdgeLabelNode ((c1 :: w1') ++ (sp1 ++ ('-' :: '-' :: '>' :: (sp2 ++ ((c2 :: w2') ++ br))))) = none := by
    rw [matchEdgeLabelNode.eq_def, hA]
    dsimp only
    rw [hS1, hD]
    dsimp only
    rw [hS2]
    simp only [List.cons_append]
    split
    · next r3 heq =>
      exact absurd (List.cons.inj heq).1 (word_ne_bar c2 (hw2 c2 (by simp)))
    · rfl
  have hM4 : matchPlainEdge ((c1 :: w1') ++ (sp1 ++ ('-' :: '-' :: '>' :: (sp2 ++ ((c2 :: w2') ++ br))))) =
      some (c1 :: w1', c2 :: w2', none) := by
    rw [matchPlainEdge.eq_def, hA]
    dsimp only
    rw [hS1, hD]
    dsimp only
    rw [hS2, hT2]
    dsimp only
    rw [hL]
  refine ⟨?_, ?_⟩
  · rw [processLine.eq_def, hM1]
    dsimp only
    rw [hM2]
    dsimp only
    rw [hM3]
    dsimp only
    rw [hM4]
    rfl
  · intro hK hne
    have h1 : hasKey (ensureNode ns (String.mk (c1 :: w1'))) (String.mk (c2 :: w2')) = false := by
      by_cases h2 : hasKey (ensureNode ns (String.mk (c1 :: w1'))) (String.mk (c2 :: w2')) = true
      · exfalso
        have hmem := (hasKey_iff _ _).1 h2
        unfold ensureNode at hmem
        by_cases h3 : hasKey ns (String.mk (c1 :: w1')) = true
        · rw [if_pos h3] at hmem
          rw [(hasKey_iff _ _).2 hmem] at hK
          exact absurd hK (by simp)
        · simp only [Bool.not_eq_true] at h3
          rw [if_neg (by simp [h3])] at hmem
          rw [keys_setAssoc] at hmem
          rw [if_neg (by simp [h3])] at hmem
          rcases List.mem_append.1 hmem with hmem | hmem
          · rw [(hasKey_iff _ _).2 hmem] at hK
            exact absurd hK (by simp)
          · simp at hmem
            exact hne hmem.symm
      · simpa using h2
    rw [ensureNode, if_neg (by simp [h1])]
    exact getAssoc_setAssoc_self _ _ _

/-- Witness for C10 at the concrete line `A --> B{Decision}` from the empty
state: an unlabelled arrow edge is appended, the target `B` is created as a
default rectangle, and the `{Decision}` bracket form is discarded. -/
theorem c10_plain_edge_witness :
    processLine ⟨[], []⟩ "A --> B\x7bDecision\x7d".data =
      ⟨ensureNode (ensureNode [] "A") "B",
       [{ id := "A-B", fromId := "A", toId := "B", label := none, type := .arrow }]⟩ ∧
    getAssoc (ensureNode (ensureNode [] "A") "B") "B" =
      some { id := "B", label := "B", shape := .rectangle } := by
  obtain ⟨h1, h2⟩ := c10_plain_edge_creates_default_target [] [] "A".data " ".data " ".data "B".data
    "\x7bDecision\x7d".data '\x7b' (by decide) (by decide) (by decide) (by decide)
    (by decide) (by decide) (by decide) (by decide)
  exact ⟨h1, h2 (by decide) (by decide)⟩

end MermaidViz

